import Mathlib

/-!
# Verification of the Tea Lead Finder discovery–dedup–notify pipeline

Shallow embedding of `tea_lead_finder.py`: the fingerprint function `hsh`
(SHA-256 hex digest of the UTF-8 encoded URL), the OLX list parser over an
abstract DOM, the per-keyword search and full scan merge, the SQLite-backed
dedup store (`INSERT OR IGNORE` keyed by `id`), the stats report, and the
Telegram notification fan-out.  Machine words are `Nat` reduced mod `2^32`.
External effects (HTTP fetch, the HTML parser producing the soup, SQLite I/O
faults, the Telegram transport) are passed in as explicit function arguments.
-/

set_option maxRecDepth 4000

/-- 2^32, the word modulus for SHA-256 arithmetic. -/
def M32 : Nat := 4294967296

/-- UTF-8 encoding of one character (Python `str.encode("utf-8")`;
`errors="ignore"` never fires on valid scalar values, which is all a Lean
`Char` can hold). -/
def utf8Char (c : Char) : List Nat :=
  let n := c.toNat
  if n < 128 then [n]
  else if n < 2048 then [192 ||| (n >>> 6), 128 ||| (n &&& 63)]
  else if n < 65536 then
    [224 ||| (n >>> 12), 128 ||| ((n >>> 6) &&& 63), 128 ||| (n &&& 63)]
  else
    [240 ||| (n >>> 18), 128 ||| ((n >>> 12) &&& 63),
     128 ||| ((n >>> 6) &&& 63), 128 ||| (n &&& 63)]

/-- UTF-8 bytes of a string. -/
def utf8 (s : String) : List Nat :=
  (s.data.map utf8Char).flatten

/-- Rotate a 32-bit word right by n bits. -/
def rotr32 (n x : Nat) : Nat :=
  ((x >>> n) ||| (x <<< (32 - n))) % M32

/-- SHA-256 Ch function (¬x taken within 32 bits). -/
def shaCh (x y z : Nat) : Nat :=
  (x &&& y) ^^^ ((x ^^^ 4294967295) &&& z)

/-- SHA-256 Maj function. -/
def shaMaj (x y z : Nat) : Nat :=
  (x &&& y) ^^^ (x &&& z) ^^^ (y &&& z)

/-- SHA-256 Σ0. -/
def bigSig0 (x : Nat) : Nat := rotr32 2 x ^^^ rotr32 13 x ^^^ rotr32 22 x

/-- SHA-256 Σ1. -/
def bigSig1 (x : Nat) : Nat := rotr32 6 x ^^^ rotr32 11 x ^^^ rotr32 25 x

/-- SHA-256 σ0. -/
def smallSig0 (x : Nat) : Nat := rotr32 7 x ^^^ rotr32 18 x ^^^ (x >>> 3)

/-- SHA-256 σ1. -/
def smallSig1 (x : Nat) : Nat := rotr32 17 x ^^^ rotr32 19 x ^^^ (x >>> 10)

/-- The 64 SHA-256 round constants. -/
def shaK : List Nat :=
  [1116352408, 1899447441, 3049323471, 3921009573, 961987163,
   1508970993, 2453635748, 2870763221, 3624381080, 310598401,
   607225278, 1426881987, 1925078388, 2162078206, 2614888103,
   3248222580, 3835390401, 4022224774, 264347078, 604807628,
   770255983, 1249150122, 1555081692, 1996064986, 2554220882,
   2821834349, 2952996808, 3210313671, 3336571891, 3584528711,
   113926993, 338241895, 666307205, 773529912, 1294757372,
   1396182291, 1695183700, 1986661051, 2177026350, 2456956037,
   2730485921, 2820302411, 3259730800, 3345764771, 3516065817,
   3600352804, 4094571909, 275423344, 430227734, 506948616,
   659060556, 883997877, 958139571, 1322822218, 1537002063,
   1747873779, 1955562222, 2024104815, 2227730452, 2361852424,
   2428436474, 2756734187, 3204031479, 3329325298]

/-- SHA-256 initial hash state. -/
def shaH0 : List Nat :=
  [1779033703, 3144134277, 1013904242, 2773480762,
   1359893119, 2600822924, 528734635, 1541459225]

/-- Message padding: append 0x80, zeros, then the 64-bit big-endian bit
length, so the total byte length is a multiple of 64. -/
def shaPad (msg : List Nat) : List Nat :=
  let L := msg.length
  let bitlen := 8 * L
  let k := (64 + 56 - (L + 1) % 64) % 64
  msg ++ [128] ++ List.replicate k 0 ++
    (List.range 8).map (fun i => (bitlen >>> (56 - 8 * i)) &&& 255)

/-- Pack bytes into big-endian 32-bit words. -/
def bytesToWords : List Nat → List Nat
  | b0 :: b1 :: b2 :: b3 :: rest =>
      ((b0 <<< 24) ||| (b1 <<< 16) ||| (b2 <<< 8) ||| b3) :: bytesToWords rest
  | _ => []

/-- Split a byte list into 64-byte chunks (fuel-indexed so that it is
structurally recursive; `fuel = length` always suffices since each step
consumes at least one byte). -/
def chunks64Go : Nat → List Nat → List (List Nat)
  | 0, _ => []
  | _, [] => []
  | fuel + 1, b :: rest => ((b :: rest).take 64) :: chunks64Go fuel ((b :: rest).drop 64)

/-- Split a byte list into 64-byte chunks. -/
def chunks64 (l : List Nat) : List (List Nat) :=
  chunks64Go l.length l

/-- Extend the 16 block words to the 64-word message schedule. -/
def shaExtend (w0 : List Nat) : List Nat :=
  (List.range 48).foldl
    (fun w _ =>
      let n := w.length
      let v := (w.getD (n - 16) 0 + smallSig0 (w.getD (n - 15) 0) +
                w.getD (n - 7) 0 + smallSig1 (w.getD (n - 2) 0)) % M32
      w ++ [v])
    w0

/-- One SHA-256 round on the 8-word working state. -/
def shaRound (st : List Nat) (kw : Nat × Nat) : List Nat :=
  match st with
  | [a, b, c, d, e, f, g, h] =>
      let t1 := (h + bigSig1 e + shaCh e f g + kw.1 + kw.2) % M32
      let t2 := (bigSig0 a + shaMaj a b c) % M32
      [(t1 + t2) % M32, a, b, c, (d + t1) % M32, e, f, g]
  | other => other

/-- Compress one 64-byte block into the hash state. -/
def shaBlock (H : List Nat) (block : List Nat) : List Nat :=
  let w := shaExtend (bytesToWords block)
  let st := (shaK.zip w).foldl shaRound H
  (H.zip st).map (fun p => (p.1 + p.2) % M32)

/-- SHA-256 of a byte sequence, as the 8 words of the final state. -/
def sha256Words (msg : List Nat) : List Nat :=
  (chunks64 (shaPad msg)).foldl shaBlock shaH0

/-- One lowercase hex digit. -/
def hexDigit (n : Nat) : Char :=
  if n < 10 then Char.ofNat (48 + n) else Char.ofNat (87 + n)

/-- Eight lowercase hex digits of a 32-bit word, most significant first. -/
def hex8 (n : Nat) : List Char :=
  (List.range 8).map (fun i => hexDigit ((n >>> (28 - 4 * i)) &&& 15))

/-- Embeds `hsh(text)`: SHA-256 hex digest of the UTF-8 encoding
(`hashlib.sha256(text.encode("utf-8", errors="ignore")).hexdigest()`). -/
def hsh (text : String) : String :=
  String.mk (((sha256Words (utf8 text)).map hex8).flatten)

/-- Lowercasing of one character, modelling Python `str.lower` on the
alphabets the program actually handles: ASCII letters and the Cyrillic
block used by the Ukrainian/Russian keywords and city names. -/
def py_lower_char (c : Char) : Char :=
  let n := c.toNat
  if 65 ≤ n ∧ n ≤ 90 then Char.ofNat (n + 32)
  else if 1040 ≤ n ∧ n ≤ 1071 then Char.ofNat (n + 32)
  else if 1024 ≤ n ∧ n ≤ 1039 then Char.ofNat (n + 80)
  else if n = 1168 then Char.ofNat 1169
  else c

/-- Python `str.lower` (restricted to the alphabets above). -/
def py_lower (s : String) : String :=
  String.mk (s.data.map py_lower_char)

/-- Python regex `\s` / `str.strip` whitespace, modelled on the ASCII
whitespace characters plus NBSP. -/
def py_isspace (c : Char) : Bool :=
  c = ' ' || c = '\t' || c = '\n' || c = '\r' || c.toNat = 11 || c.toNat = 12 || c.toNat = 160

/-- Replace each maximal whitespace run by a single space
(`re.sub(r"\s+", " ", s)`); the flag records whether the previous
character was part of a whitespace run. -/
def collapse_ws : Bool → List Char → List Char
  | _, [] => []
  | prevSpace, c :: rest =>
    if py_isspace c then
      (if prevSpace then [] else [' ']) ++ collapse_ws true rest
    else c :: collapse_ws false rest

/-- Embeds `clean_space(s)`: collapse whitespace runs to single spaces, then strip
(`re.sub(r"\s+", " ", s or "").strip()`). -/
def clean_space (s : String) : String :=
  String.mk ((((collapse_ws false s.data).dropWhile py_isspace).reverse.dropWhile
    py_isspace).reverse)

/-- Whether the first list is an initial segment of the second. -/
def isPre : List Char → List Char → Bool
  | [], _ => true
  | _ :: _, [] => false
  | a :: as, b :: bs => a = b && isPre as bs

/-- Whether `needle` occurs as a contiguous segment of `hay`
(Python `needle in hay`; the empty needle always matches). -/
def hasSub : List Char → List Char → Bool
  | hay, needle =>
    isPre needle hay ||
      match hay with
      | [] => false
      | _ :: t => hasSub t needle

/-- Python `needle in hay` on strings. -/
def strHas (hay needle : String) : Bool :=
  hasSub hay.data needle.data

/-- Python `s.startswith(pre)`. -/
def py_startswith (s pre : String) : Bool :=
  isPre pre.data s.data

/-- Embeds `CITY_NAMES` from the source (a Python set; iteration order is
irrelevant because it is only consumed by `any`). -/
def CITY_NAMES : List String := ["київ", "киев", "kyiv"]

/-- Embeds `is_kyiv(text)`: whether the lowered text contains one of the city
names. -/
def is_kyiv (text : String) : Bool :=
  CITY_NAMES.any (fun name => strHas (py_lower text) name)

/-! ## The DOM consumed by the parser

`parse_olx_list` receives the BeautifulSoup tree of the fetched page.
Constructing that tree from raw HTML is the external `lxml` parser, so the
embedding takes the already-parsed tree as input: an element node with a
tag name, attributes and children, or a text node. -/

mutual

/-- A parsed HTML node.  The children sit in a `NodeForest` (a mutual copy
of `List Node`) so that the tree traversals below are structurally
recursive. -/
inductive Node where
  | text : String → Node
  | elem : String → List (String × String) → NodeForest → Node

/-- A sequence of sibling nodes. -/
inductive NodeForest where
  | nil : NodeForest
  | cons : Node → NodeForest → NodeForest

end

/-- Build a forest from a list of nodes (for writing concrete pages). -/
def nodes : List Node → NodeForest
  | [] => NodeForest.nil
  | n :: rest => NodeForest.cons n (nodes rest)

/-- All nodes of a forest in document (pre-)order: each root, then its
subtree, then the later roots. -/
def preorderF : NodeForest → List Node
  | NodeForest.nil => []
  | NodeForest.cons (Node.text s) rest => Node.text s :: preorderF rest
  | NodeForest.cons (Node.elem t a cs) rest =>
      Node.elem t a cs :: (preorderF cs ++ preorderF rest)

/-- All text-node strings of a forest in document order
(BeautifulSoup `.strings`). -/
def textsF : NodeForest → List String
  | NodeForest.nil => []
  | NodeForest.cons (Node.text s) rest => s :: textsF rest
  | NodeForest.cons (Node.elem _ _ cs) rest => textsF cs ++ textsF rest

/-- Embeds `node.get_text(sep)`: the strings of the subtree joined by `sep`. -/
def get_text (sep : String) (n : Node) : String :=
  match n with
  | Node.text s => s
  | Node.elem _ _ cs => String.intercalate sep (textsF cs)

/-- Proper descendants of a node, in document order (the domain searched by
BeautifulSoup `find` / `find_all` on a tag). -/
def descendantsOf : Node → List Node
  | Node.text _ => []
  | Node.elem _ _ cs => preorderF cs

/-- Whether a node is an element whose tag is one of `tags`. -/
def isElemIn (tags : List String) : Node → Bool
  | Node.elem t _ _ => tags.contains t
  | Node.text _ => false

/-- Embeds `card.find(tags)`: first descendant element with one of the tags. -/
def find_first (tags : List String) (card : Node) : Option Node :=
  (descendantsOf card).find? (isElemIn tags)

/-- Embeds `card.find_all(tags)`: all descendant elements with one of the tags. -/
def find_all_tags (tags : List String) (card : Node) : List Node :=
  (descendantsOf card).filter (isElemIn tags)

/-- Embeds `soup.find_all("a", href=True)` together with each anchor's ancestor
chain (nearest first, used for the `.parent` walk).  Scans a forest of
siblings whose common ancestor chain is `anc`: the anchor test on each
element, then its children (with the element pushed on the chain), then the
later siblings. -/
def anchorsF (anc : List Node) : NodeForest → List (List Node × Node)
  | NodeForest.nil => []
  | NodeForest.cons (Node.text _) rest => anchorsF anc rest
  | NodeForest.cons (Node.elem t attrs cs) rest =>
      (if t = "a" ∧ (attrs.lookup "href").isSome
        then [(anc, Node.elem t attrs cs)] else []) ++
      anchorsF (Node.elem t attrs cs :: anc) cs ++ anchorsF anc rest

/-- All `a[href]` descendants of the soup with their ancestor chains (the
chain ends at the soup object itself, whose own `.parent` is `None`). -/
def find_anchors (soup : Node) : List (List Node × Node) :=
  match soup with
  | Node.text _ => []
  | Node.elem _ _ cs => anchorsF [soup] cs

/-! ## Listings -/

/-- The in-memory lead dict built by the parser. -/
structure Lead where
  id : String
  url : String
  title : String
  price : String
  location : String
  published_at : String
  source : String
  keyword : String
deriving DecidableEq, Repr

instance : Inhabited Lead := ⟨⟨"", "", "", "", "", "", "", ""⟩⟩

/-- The four heuristic fields accumulated while walking up from an anchor;
`""` plays the role of Python's falsy `None`/empty string (every check the
source performs on these variables is a truthiness test). -/
structure FState where
  title : String
  price : String
  location : String
  published : String
deriving DecidableEq, Repr

/-- One iteration of the `for _ in range(3)` card walk: try to fill the
still-empty fields from the current card. -/
def stepCard (f : FState) (card : Node) : FState :=
  let title :=
    if f.title = "" then
      match find_first ["h6", "h5", "h4", "h3"] card with
      | some h => clean_space (get_text " " h)
      | none => f.title
    else f.title
  let price :=
    if f.price = "" then
      match find_first ["p"] card with
      | some price_el =>
          if ["₴", "грн", "$", "€"].any (fun sym => strHas (get_text "" price_el) sym)
          then clean_space (get_text " " price_el)
          else f.price
      | none => f.price
    else f.price
  let locpub :=
    if f.location = "" ∨ f.published = "" then
      (find_all_tags ["p", "span"] card).foldl
        (fun (lp : String × String) small =>
          let txt := clean_space (get_text " " small)
          let loc :=
            if lp.1 = "" ∧ txt ≠ "" ∧
                (strHas txt "Київ" ∨ strHas txt "Киев" ∨ strHas txt "Kyiv" ∨
                 strHas txt "район")
            then txt else lp.1
          let pub :=
            if lp.2 = "" ∧
                (["сьогодні", "сегодня", "вчора", "вчера", ":", "202", "2024",
                  "2025"].any (fun w => strHas (py_lower txt) w))
            then txt else lp.2
          (loc, pub))
        (f.location, f.published)
    else (f.location, f.published)
  { title := title, price := price, location := locpub.1, published := locpub.2 }

/-- The card walk: start at `a.parent` and climb at most three ancestors
(`card = card.parent` each round; `card is None` ends the walk). -/
def extract_fields (anc : List Node) : FState :=
  (anc.take 3).foldl stepCard ⟨"", "", "", ""⟩

/-- Process one anchor found by `find_all("a", href=True)`: the href shape
check, URL absolutisation, the ancestor field walk, the Kyiv location
filter, and the lead dict construction. -/
def process_anchor (keyword : String) (pr : List Node × Node) : Option Lead :=
  match pr.2 with
  | Node.text _ => none
  | Node.elem _ attrs _ =>
    match attrs.lookup "href" with
    | none => none
    | some href =>
      if href = "" then none
      else if strHas href "/d/" ∧ (strHas href "/obyavlenie/" ∨ strHas href "/ogoloshennya/") then
        let url := if py_startswith href "http" then href else "https://www.olx.ua" ++ href
        let f := extract_fields pr.1
        if f.location ≠ "" ∧ ¬ is_kyiv f.location then none
        else some
          { id := hsh url
            url := url
            title := if f.title = "" then "(без назви)" else f.title
            price := if f.price = "" then "—" else f.price
            location := if f.location = "" then "Київ" else f.location
            published_at := f.published
            source := "olx"
            keyword := keyword }
      else none

/-- Embeds `unique.setdefault(it["id"], it)` over a Python dict: keep the first
item seen for each id, in first-seen order. -/
def setdefaultIns (acc : List Lead) (x : Lead) : List Lead :=
  if acc.any (fun y => y.id = x.id) then acc else acc ++ [x]

/-- Dedup keeping the first occurrence per id (the parser's `setdefault`
loop). -/
def dedupKeepFirst (xs : List Lead) : List Lead :=
  xs.foldl setdefaultIns []

/-- Embeds `d[x["id"]] = x` over a Python dict: a later item with a known id
replaces the stored value in place (first-seen key position, last-seen
value). -/
def dictIns : List Lead → Lead → List Lead
  | [], x => [x]
  | y :: ys, x => if y.id = x.id then x :: ys else y :: dictIns ys x

/-- Dedup with dict-comprehension semantics (`{x["id"]: x for x in xs}`):
first-seen position, last-seen value. -/
def dedupKeepLast (xs : List Lead) : List Lead :=
  xs.foldl dictIns []

/-- Embeds `parse_olx_list(html, keyword)` over the already-parsed soup: collect a
lead per qualifying anchor, then dedup by id keeping the first. -/
def parse_olx_list (soup : Node) (keyword : String) : List Lead :=
  dedupKeepFirst ((find_anchors soup).filterMap (process_anchor keyword))

/-! ## Search and scan -/

/-- An uppercase hex digit (for percent-encoding). -/
def hexDigitUp (n : Nat) : Char :=
  if n < 10 then Char.ofNat (48 + n) else Char.ofNat (55 + n)

/-- Characters `urllib.parse.quote` leaves unescaped with the default
`safe='/'`: ASCII letters, digits, `_ . - ~` and `/`. -/
def quote_safe (c : Char) : Bool :=
  c.isAlpha || c.isDigit || c = '_' || c = '.' || c = '-' || c = '~' || c = '/'

/-- Embeds `requests.utils.quote(s)`: percent-encode the UTF-8 bytes of every
character outside the safe set. -/
def py_quote (s : String) : String :=
  String.mk ((s.data.map (fun c =>
    if quote_safe c then [c]
    else (utf8Char c).map (fun b => ['%', hexDigitUp (b >>> 4), hexDigitUp (b &&& 15)])
      |>.flatten)).flatten)

/-- Embeds `OLX_SEARCH_URL.format(query=q)`. -/
def OLX_SEARCH_URL (query : String) : String :=
  "https://www.olx.ua/uk/list/q-" ++ query ++ "/?search%5Border%5D=created_at:desc"

/-- Embeds `OLX_SEARCH_URL_RU.format(query=q)`. -/
def OLX_SEARCH_URL_RU (query : String) : String :=
  "https://www.olx.ua/d/list/q-" ++ query ++ "/?search%5Border%5D=created_at:desc"

/-- An apostrophe character (used inside one keyword). -/
def apos : String := String.mk [Char.ofNat 39]

/-- The configured `KEYWORDS` list. -/
def KEYWORDS : List String :=
  ["куплю чай", "куплю чай оптом", "травяний чай", "чорний чай",
   "ароматизований чай", "зелений чай", "чай оптом", "купить чай оптом",
   "чаї оптом Україна", "травяні чаї", "чай до кав" ++ apos ++ "ярні",
   "куплю матча чай", "чай для подарунка", "чайний набір купити",
   "пакетовані чаї оптом", "чай оптом Київ", "органічний чай купити",
   "чай онлайн", "чай доставка Київ", "чай гуртом", "чай магазин Київ",
   "чай преміум купити", "чайний бутик Київ"]

/-- Embeds `search_olx_by_keyword(keyword)`.  The network request plus the
BeautifulSoup construction is the external step `fetch : url → Option
soup`; `request_with_headers` returning `None` (all header attempts
failed) is `fetch url = none` and that URL is skipped.  The two per-URL
result lists are concatenated and deduplicated by id with
dict-comprehension semantics. -/
def search_olx_by_keyword (fetch : String → Option Node) (keyword : String) : List Lead :=
  let q := py_quote keyword
  let urls := [OLX_SEARCH_URL q, OLX_SEARCH_URL_RU q]
  let all_items := urls.foldl
    (fun acc url =>
      match fetch url with
      | none => acc
      | some soup => acc ++ parse_olx_list soup keyword) []
  dedupKeepLast all_items

/-- Embeds `scan_all_keywords()`, with the global `KEYWORDS` passed explicitly.
In the embedding `search_olx_by_keyword` is total, so the per-keyword
`except` branch (which logs and continues) is never taken; per-keyword
failure is `fetch` returning `none` for that keyword's URLs. -/
def scan_all_keywords (fetch : String → Option Node) (keywords : List String) : List Lead :=
  dedupKeepLast (keywords.foldl (fun acc kw => acc ++ search_olx_by_keyword fetch kw) [])

/-! ## The store (SQLite `leads` + `subscribers` tables) -/

/-- A persisted row of the `leads` table. -/
structure Row where
  id : String
  url : String
  title : String
  price : String
  location : String
  published_at : String
  source : String
  keyword : String
  created_at : String
deriving DecidableEq, Repr

/-- The database state created by `init_db`. -/
structure DB where
  leads : List Row
  subscribers : List String
deriving DecidableEq, Repr

/-- The row written for a lead (`created_at` is the insertion timestamp,
passed in for `datetime.now(timezone.utc).isoformat()`). -/
def row_of (now : String) (l : Lead) : Row :=
  ⟨l.id, l.url, l.title, l.price, l.location, l.published_at, l.source, l.keyword, now⟩

/-- Embeds `INSERT OR IGNORE` keyed by the `id` primary key: returns the updated
table and `cur.rowcount` (1 iff a new row was written). -/
def insert_or_ignore (rows : List Row) (r : Row) : List Row × Nat :=
  if rows.any (fun x => x.id = r.id) then (rows, 0) else (rows ++ [r], 1)

/-- The `save_leads` loop.  `ioFail l = true` models `cur.execute` raising
an I/O error for that lead: nothing is written, the lead is not appended to
`new_items` (only logged), and the loop continues. -/
def save_leads_go (ioFail : Lead → Bool) (now : String) :
    List Row → List Lead → List Lead → List Row × List Lead
  | rows, acc, [] => (rows, acc)
  | rows, acc, l :: rest =>
    if ioFail l then save_leads_go ioFail now rows acc rest
    else
      let p := insert_or_ignore rows (row_of now l)
      save_leads_go ioFail now p.1 (if p.2 = 1 then acc ++ [l] else acc) rest

/-- Embeds `save_leads(conn, leads)`: insert each lead with `INSERT OR IGNORE`,
returning the new table and the leads whose insert created a row. -/
def save_leads (rows : List Row) (leads : List Lead) (ioFail : Lead → Bool)
    (now : String) : List Row × List Lead :=
  save_leads_go ioFail now rows [] leads

/-- Embeds `get_subscribers(conn)`. -/
def get_subscribers (db : DB) : List String := db.subscribers

/-- Embeds `add_subscriber(conn, chat_id)`: `INSERT OR IGNORE` on the
`subscribers` primary key. -/
def add_subscriber (db : DB) (chat_id : String) : DB :=
  if db.subscribers.any (fun c => c = chat_id) then db
  else { db with subscribers := db.subscribers ++ [chat_id] }

/-! ## Analytics and the stats command -/

/-- SQLite `date(created_at)` on an ISO-8601 timestamp: its date part. -/
def sql_date (s : String) : String := String.mk (s.data.take 10)

/-- SQLite `strftime('%Y-%m', created_at)` on an ISO-8601 timestamp. -/
def sql_ym (s : String) : String := String.mk (s.data.take 7)

/-- Embeds `_count_day(conn, ymd)`. -/
def count_day (rows : List Row) (ymd : String) : Nat :=
  (rows.filter (fun r => sql_date r.created_at = ymd)).length

/-- Embeds `_count_month(conn, ym)`. -/
def count_month (rows : List Row) (ym : String) : Nat :=
  (rows.filter (fun r => sql_ym r.created_at = ym)).length

/-- The figures computed by the `/stats` handler. -/
structure StatsReport where
  n_today : Nat
  n_yest : Nat
  d_mark : String
  m_this : Nat
  m_prev : Nat
  m_mark : String
deriving DecidableEq, Repr

/-- The computation of `handle_stats`: the four counts and the two delta
markers.  The four date strings come from `datetime.utcnow()` (external
clock) and are passed in. -/
def handle_stats (rows : List Row) (ymd_today ymd_yest ym_this ym_prev : String) :
    StatsReport :=
  let n_today := count_day rows ymd_today
  let n_yest := count_day rows ymd_yest
  let delta_d : Int := (n_today : Int) - (n_yest : Int)
  let d_mark :=
    if delta_d > 0 then "🟢 +" ++ toString delta_d
    else if delta_d < 0 then "🔴 " ++ toString delta_d
    else "⚪︎ 0"
  let m_this := count_month rows ym_this
  let m_prev := count_month rows ym_prev
  let delta_m : Int := (m_this : Int) - (m_prev : Int)
  let m_mark :=
    if delta_m > 0 then "🟢 +" ++ toString delta_m
    else if delta_m < 0 then "🔴 " ++ toString delta_m
    else "⚪︎ 0"
  { n_today := n_today, n_yest := n_yest, d_mark := d_mark,
    m_this := m_this, m_prev := m_prev, m_mark := m_mark }

/-! ## Telegram formatting and delivery -/

/-- Embeds `WALLET_URL` (the `os.getenv` default; the env override is external
configuration). -/
def WALLET_URL : String := "https://your.wallet/link"

/-- Embeds `format_lead(lead)`. -/
def format_lead (lead : Lead) : String :=
  String.intercalate "\n"
    ["📍 Новий потенційний клієнт (OLX)",
     "🔑 Ключ: " ++ lead.keyword,
     "🏷️ Назва: " ++ lead.title,
     "💵 Ціна: " ++ lead.price,
     "📍 Локація: " ++ lead.location,
     "🕒 Оновлено: " ++ lead.published_at,
     "🔗 Посилання: " ++ lead.url,
     "💳 Підтримати/оплата: " ++ WALLET_URL]

/-- Embeds `send_to_telegram(bot, chat_id, text)`: one delivery attempt through
the external transport `send`; an exception from `bot.send_message` is
caught and logged, never propagated.  Returns whether the attempt
succeeded. -/
def send_to_telegram (send : String → String → Except String Unit)
    (chat_id text : String) : Bool :=
  match send chat_id text with
  | Except.ok _ => true
  | Except.error _ => false

/-- The notification fan-out of `run_periodic_scanner`: for each new lead,
format its message once, then attempt delivery to every subscriber.
Records every attempt as (chat_id, text, succeeded). -/
def notify_new_leads (send : String → String → Except String Unit)
    (subs : List String) (new_leads : List Lead) : List (String × String × Bool) :=
  (new_leads.map (fun lead =>
    subs.map (fun chat_id =>
      (chat_id, format_lead lead, send_to_telegram send chat_id (format_lead lead))))).flatten

/-- One body iteration of `run_periodic_scanner`'s `while True` loop:
scan, persist, and fan the new leads out to the subscribers.  Returns the
updated leads table and the delivery attempts made. -/
def run_periodic_cycle (fetch : String → Option Node) (keywords : List String)
    (send : String → String → Except String Unit) (db : DB) (now : String) :
    DB × List Lead × List (String × String × Bool) :=
  let leads := scan_all_keywords fetch keywords
  let p := save_leads db.leads leads (fun _ => false) now
  (⟨p.1, db.subscribers⟩, p.2, notify_new_leads send (get_subscribers db) p.2)

/-- The `/scan` handler: acknowledge, scan synchronously, persist, then
reply to the requester with the new leads (at most 20), or a "nothing new"
notice.  Returns the updated database and every message sent as
(chat_id, text). -/
def handle_scan (db : DB) (fetch : String → Option Node) (keywords : List String)
    (chat_id now : String) : DB × List (String × String) :=
  let ack := [(chat_id, "Сканую OLX, зачекай 10–60 сек…")]
  let leads := scan_all_keywords fetch keywords
  let p := save_leads db.leads leads (fun _ => false) now
  let msgs :=
    if p.2.isEmpty then ack ++ [(chat_id, "Нових оголошень не знайдено. Спробую пізніше.")]
    else ack ++ (p.2.take 20).map (fun l => (chat_id, format_lead l))
  (⟨p.1, db.subscribers⟩, msgs)

def soupA : Node :=
  Node.elem "html" [] (nodes
    [Node.elem "div" [] (nodes
      [Node.elem "a" [("href", "/d/obyavlenie/prodam-chai-kyiv")] (nodes
        [Node.elem "h6" [] (nodes [Node.text "Продам чай"])]),
       Node.elem "p" [] (nodes [Node.text "250 грн"]),
       Node.elem "p" [] (nodes [Node.text "Київ, Дарницький район"]),
       Node.elem "span" [] (nodes [Node.text "Сьогодні о 12:30"])])])

/-! ## Helper lemmas: deduplication by id -/

/-- The ids of a lead list. -/
def leadIds (xs : List Lead) : List String := xs.map (fun l => l.id)

theorem leadIds_append (xs ys : List Lead) :
    leadIds (xs ++ ys) = leadIds xs ++ leadIds ys := by
  simp [leadIds]

theorem mem_leadIds {i : String} {xs : List Lead} :
    i ∈ leadIds xs ↔ ∃ x ∈ xs, x.id = i := by
  simp [leadIds, eq_comm]

theorem mem_dictIns {z x : Lead} : ∀ {ys : List Lead},
    x ∈ dictIns ys z → x = z ∨ x ∈ ys := by
  intro ys
  induction ys with
  | nil => intro h; simp [dictIns] at h; exact Or.inl h
  | cons y ys ih =>
    intro h
    simp only [dictIns] at h
    by_cases hy : y.id = z.id
    · rw [if_pos hy] at h
      rcases List.mem_cons.1 h with h | h
      · exact Or.inl h
      · exact Or.inr (List.mem_cons_of_mem _ h)
    · rw [if_neg hy] at h
      rcases List.mem_cons.1 h with h | h
      · exact Or.inr (by simp [h])
      · rcases ih h with h | h
        · exact Or.inl h
        · exact Or.inr (List.mem_cons_of_mem _ h)

theorem mem_leadIds_dictIns {i : String} {z : Lead} : ∀ {ys : List Lead},
    i ∈ leadIds (dictIns ys z) → i = z.id ∨ i ∈ leadIds ys := by
  intro ys h
  rcases mem_leadIds.1 h with ⟨x, hx, rfl⟩
  rcases mem_dictIns hx with rfl | hx
  · exact Or.inl rfl
  · exact Or.inr (mem_leadIds.2 ⟨x, hx, rfl⟩)

theorem nodup_dictIns {z : Lead} : ∀ {ys : List Lead},
    (leadIds ys).Nodup → (leadIds (dictIns ys z)).Nodup := by
  intro ys
  induction ys with
  | nil => intro _; simp [dictIns, leadIds]
  | cons y ys ih =>
    intro h
    simp only [leadIds, List.map_cons, List.nodup_cons] at h
    simp only [dictIns]
    split
    · rename_i hy
      simp only [leadIds, List.map_cons, List.nodup_cons]
      exact ⟨by rw [← hy]; exact fun hz => h.1 (by simpa [leadIds] using hz), h.2⟩
    · rename_i hy
      simp only [leadIds, List.map_cons, List.nodup_cons]
      refine ⟨fun hz => ?_, ih h.2⟩
      rcases mem_leadIds_dictIns hz with h' | h'
      · exact hy h'
      · exact h.1 (by simpa [leadIds] using h')

theorem nodup_foldl_dictIns : ∀ (xs : List Lead) (acc : List Lead),
    (leadIds acc).Nodup → (leadIds (xs.foldl dictIns acc)).Nodup := by
  intro xs
  induction xs with
  | nil => intro acc h; simpa using h
  | cons x xs ih => intro acc h; exact ih (dictIns acc x) (nodup_dictIns h)

/-- The merged cycle list never holds two leads with the same id. -/
theorem nodup_dedupKeepLast (xs : List Lead) : (leadIds (dedupKeepLast xs)).Nodup :=
  nodup_foldl_dictIns xs [] (by simp [leadIds])

theorem mem_foldl_dictIns {x : Lead} : ∀ {xs acc : List Lead},
    x ∈ xs.foldl dictIns acc → x ∈ acc ∨ x ∈ xs := by
  intro xs
  induction xs with
  | nil => intro acc h; exact Or.inl h
  | cons y ys ih =>
    intro acc h
    rcases @ih (dictIns acc y) h with h' | h'
    · rcases mem_dictIns h' with rfl | h''
      · exact Or.inr (by simp)
      · exact Or.inl h''
    · exact Or.inr (List.mem_cons_of_mem _ h')

/-- Everything in the merged list came from the concatenated inputs. -/
theorem mem_dedupKeepLast {x : Lead} {xs : List Lead} :
    x ∈ dedupKeepLast xs → x ∈ xs := by
  intro h
  rcases mem_foldl_dictIns h with h | h
  · simp at h
  · exact h

theorem dictIns_of_not_mem {z : Lead} : ∀ {ys : List Lead},
    z.id ∉ leadIds ys → dictIns ys z = ys ++ [z] := by
  intro ys
  induction ys with
  | nil => intro _; simp [dictIns]
  | cons y ys ih =>
    intro h
    simp only [leadIds, List.map_cons, List.mem_cons, not_or] at h
    simp only [dictIns, if_neg (Ne.symm h.1)]
    rw [ih (by simpa [leadIds] using h.2)]
    simp

/-- A list whose ids are already distinct is left unchanged by the
dict-comprehension dedup. -/
theorem dedupKeepLast_eq_self : ∀ {xs : List Lead},
    (leadIds xs).Nodup → dedupKeepLast xs = xs := by
  have go : ∀ (xs acc : List Lead), (leadIds (acc ++ xs)).Nodup →
      xs.foldl dictIns acc = acc ++ xs := by
    intro xs
    induction xs with
    | nil => intro acc _; simp
    | cons x xs ih =>
      intro acc h
      have hx : x.id ∉ leadIds acc := by
        intro hmem
        rw [leadIds_append] at h
        exact List.disjoint_of_nodup_append h hmem (by simp [leadIds])
      simp only [List.foldl_cons, dictIns_of_not_mem hx]
      rw [ih (acc ++ [x]) (by simpa using h)]
      simp
  intro xs h
  have := go xs [] (by simpa using h)
  simpa [dedupKeepLast] using this

theorem mem_dictIns_self {z : Lead} : ∀ {ys : List Lead}, z ∈ dictIns ys z := by
  intro ys
  induction ys with
  | nil => simp [dictIns]
  | cons y ys ih =>
    simp only [dictIns]
    split
    · simp
    · exact List.mem_cons_of_mem _ ih

theorem mem_dictIns_of_ne {x y : Lead} (hne : y.id ≠ x.id) : ∀ {ys : List Lead},
    x ∈ ys → x ∈ dictIns ys y := by
  intro ys
  induction ys with
  | nil => intro h; simp at h
  | cons w ys ih =>
    intro h
    simp only [dictIns]
    split
    · rename_i hw
      rcases List.mem_cons.1 h with rfl | h
      · exact absurd hw.symm hne
      · exact List.mem_cons_of_mem _ h
    · rcases List.mem_cons.1 h with rfl | h
      · simp
      · exact List.mem_cons_of_mem _ (ih h)

/-- After processing elements none of which carries `x`'s id, `x` is still
present. -/
theorem mem_foldl_dictIns_preserve {x : Lead} : ∀ {xs acc : List Lead},
    x ∈ acc → (∀ y ∈ xs, y.id ≠ x.id) → x ∈ xs.foldl dictIns acc := by
  intro xs
  induction xs with
  | nil => intro acc h _; exact h
  | cons y ys ih =>
    intro acc h hne
    simp only [List.foldl_cons]
    exact ih (mem_dictIns_of_ne (hne y (by simp)) h) (fun z hz => hne z (by simp [hz]))

/-- The element surviving the dict-comprehension dedup for an id is the
last input element with that id. -/
theorem dedupKeepLast_mem_last {x : Lead} {u v : List Lead}
    (hv : ∀ y ∈ v, y.id ≠ x.id) : x ∈ dedupKeepLast (u ++ x :: v) := by
  unfold dedupKeepLast
  rw [List.foldl_append]
  simp only [List.foldl_cons]
  exact mem_foldl_dictIns_preserve mem_dictIns_self hv

/-- With distinct ids, the member carrying a given id is counted exactly
once. -/
theorem count_of_nodup {x : Lead} : ∀ {xs : List Lead},
    (leadIds xs).Nodup → x ∈ xs →
    (xs.filter (fun l => l.id = x.id)).length = 1 := by
  intro xs
  induction xs with
  | nil => intro _ h; simp at h
  | cons y ys ih =>
    intro hnd hmem
    simp only [leadIds, List.map_cons, List.nodup_cons] at hnd
    rcases List.mem_cons.1 hmem with rfl | hmem
    · have hnone : ys.filter (fun l => l.id = x.id) = [] := by
        apply List.filter_eq_nil_iff.2
        intro l hl hid
        exact hnd.1 (List.mem_map.2 ⟨l, hl, by simpa using hid⟩)
      simp [List.filter_cons, hnone]
    · have hne : y.id ≠ x.id := by
        intro he
        exact hnd.1 (List.mem_map.2 ⟨x, hmem, he.symm⟩)
      simp only [List.filter_cons, decide_eq_true_eq, hne, if_false]
      exact ih hnd.2 hmem

/-! ## Helper lemmas: the parser -/

theorem mem_setdefaultIns {x z : Lead} {ys : List Lead} :
    x ∈ setdefaultIns ys z → x = z ∨ x ∈ ys := by
  unfold setdefaultIns
  split
  · exact fun h => Or.inr h
  · intro h
    rcases List.mem_append.1 h with h | h
    · exact Or.inr h
    · exact Or.inl (by simpa using h)

theorem mem_dedupKeepFirst {x : Lead} {xs : List Lead} :
    x ∈ dedupKeepFirst xs → x ∈ xs := by
  have go : ∀ (ys acc : List Lead), x ∈ ys.foldl setdefaultIns acc → x ∈ acc ∨ x ∈ ys := by
    intro ys
    induction ys with
    | nil => intro acc h; exact Or.inl h
    | cons y ys ih =>
      intro acc h
      rcases ih (setdefaultIns acc y) h with h' | h'
      · rcases mem_setdefaultIns h' with rfl | h''
        · exact Or.inr (by simp)
        · exact Or.inl h''
      · exact Or.inr (List.mem_cons_of_mem _ h')
  intro h
  rcases go xs [] h with h | h
  · simp at h
  · exact h

theorem isPre_append {p : List Char} : ∀ {a : List Char} (b : List Char),
    isPre p a = true → isPre p (a ++ b) = true := by
  induction p with
  | nil => intro a b _; rfl
  | cons c cs ih =>
    intro a b h
    cases a with
    | nil => simp [isPre] at h
    | cons d ds =>
      simp only [isPre, Bool.and_eq_true, decide_eq_true_eq] at h
      simp only [List.cons_append, isPre, Bool.and_eq_true, decide_eq_true_eq]
      exact ⟨h.1, ih b h.2⟩

/-- Everything `process_anchor` emits: the search keyword tag, the
content-addressed id, an absolute URL, and a Kyiv location (the placeholder
exactly when no location was extracted). -/
theorem process_anchor_spec {kw : String} {pr : List Node × Node} {l : Lead}
    (h : process_anchor kw pr = some l) :
    l.keyword = kw ∧ l.id = hsh l.url ∧ py_startswith l.url "http" = true ∧
    is_kyiv l.location = true ∧
    ((extract_fields pr.1).location = "" → l.location = "Київ") := by
  unfold process_anchor at h
  rcases pr with ⟨anc, a⟩
  cases a with
  | text s => simp at h
  | elem t attrs cs =>
    dsimp only at h
    rcases hl : attrs.lookup "href" with _ | href
    · rw [hl] at h; simp at h
    · rw [hl] at h
      dsimp only at h
      by_cases h0 : href = ""
      · rw [if_pos h0] at h; simp at h
      · rw [if_neg h0] at h
        by_cases h1 : strHas href "/d/" ∧ (strHas href "/obyavlenie/" ∨ strHas href "/ogoloshennya/")
        · rw [if_pos h1] at h
          by_cases h2 : (extract_fields anc).location ≠ "" ∧ ¬ is_kyiv (extract_fields anc).location
          · rw [if_pos h2] at h; simp at h
          · rw [if_neg h2] at h
            have hle := Option.some.inj h
            subst hle
            refine ⟨rfl, rfl, ?_, ?_, ?_⟩
            · dsimp only
              by_cases hs : py_startswith href "http"
              · rw [if_pos hs]; exact hs
              · rw [if_neg hs]
                unfold py_startswith
                rw [String.data_append]
                exact isPre_append _ (by decide)
            · dsimp only
              by_cases hloc : (extract_fields anc).location = ""
              · rw [if_pos hloc]; decide
              · rw [if_neg hloc]
                push_neg at h2
                exact h2 hloc
            · intro hloc
              dsimp only
              rw [if_pos hloc]
        · rw [if_neg h1] at h; simp at h

/-- With nodup ids, members are determined by their id. -/
theorem eq_of_nodup_ids : ∀ {xs : List Lead}, (leadIds xs).Nodup →
    ∀ {a b : Lead}, a ∈ xs → b ∈ xs → a.id = b.id → a = b := by
  intro xs
  induction xs with
  | nil => intro _ a b ha; simp at ha
  | cons y ys ih =>
    intro h a b ha hb hid
    rw [show leadIds (y :: ys) = y.id :: leadIds ys from rfl, List.nodup_cons] at h
    rcases List.mem_cons.1 ha with rfl | ha2 <;> rcases List.mem_cons.1 hb with rfl | hb2
    · rfl
    · exact absurd (show a.id ∈ leadIds ys from mem_leadIds.2 ⟨b, hb2, hid.symm⟩) h.1
    · exact absurd (show b.id ∈ leadIds ys from mem_leadIds.2 ⟨a, ha2, hid⟩) h.1
    · exact ih h.2 ha2 hb2 hid

/-! ## Helper lemmas: `save_leads` -/

theorem save_go_rows_mono {f : Lead → Bool} {now : String} {r : Row} :
    ∀ {leads : List Lead} {rows : List Row} {acc : List Lead},
    r ∈ rows → r ∈ (save_leads_go f now rows acc leads).1 := by
  intro leads
  induction leads with
  | nil => intro rows acc h; exact h
  | cons l rest ih =>
    intro rows acc h
    simp only [save_leads_go]
    split
    · exact ih h
    · unfold insert_or_ignore
      split
      · exact ih h
      · exact ih (List.mem_append.2 (Or.inl h))

theorem save_go_acc_mono {f : Lead → Bool} {now : String} {x : Lead} :
    ∀ {leads : List Lead} {rows : List Row} {acc : List Lead},
    x ∈ acc → x ∈ (save_leads_go f now rows acc leads).2 := by
  intro leads
  induction leads with
  | nil => intro rows acc h; exact h
  | cons l rest ih =>
    intro rows acc h
    simp only [save_leads_go]
    split
    · exact ih h
    · unfold insert_or_ignore
      split
      · simp only [if_neg (by decide : ¬ (0 = 1))]
        exact ih h
      · simp only [if_pos rfl]
        exact ih (List.mem_append.2 (Or.inl h))

/-- A processed lead whose insert does not fail leaves its id in the
table (even when other inserts fail). -/
theorem save_go_id_present {f : Lead → Bool} {now : String} {x : Lead} :
    ∀ {leads : List Lead} {rows : List Row} {acc : List Lead},
    x ∈ leads → f x = false →
    ∃ r ∈ (save_leads_go f now rows acc leads).1, r.id = x.id := by
  intro leads
  induction leads with
  | nil => intro rows acc h; simp at h
  | cons l rest ih =>
    intro rows acc h hf
    rcases List.mem_cons.1 h with rfl | h
    · simp only [save_leads_go, if_neg (by simp [hf] : ¬ (f x = true))]
      unfold insert_or_ignore
      split
      · rename_i hany
        rcases (List.any_eq_true).1 hany with ⟨r, hr, hid⟩
        exact ⟨r, save_go_rows_mono hr, by simpa [row_of] using (of_decide_eq_true hid)⟩
      · refine ⟨row_of now x, save_go_rows_mono ?_, rfl⟩
        simp
    · simp only [save_leads_go]
      split
      · exact ih h hf
      · unfold insert_or_ignore
        split
        · exact ih h hf
        · exact ih h hf

/-- If the store starts without id `i` and every processed lead carrying
id `i` fails its insert, no row with id `i` exists afterwards. -/
theorem save_go_no_id {f : Lead → Bool} {now : String} {i : String} :
    ∀ {leads : List Lead} {rows : List Row} {acc : List Lead},
    (∀ r ∈ rows, r.id ≠ i) → (∀ x ∈ leads, x.id = i → f x = true) →
    ∀ r ∈ (save_leads_go f now rows acc leads).1, r.id ≠ i := by
  intro leads
  induction leads with
  | nil => intro rows acc hrows _; exact hrows
  | cons l rest ih =>
    intro rows acc hrows hfail
    simp only [save_leads_go]
    split
    · exact ih hrows (fun x hx => hfail x (List.mem_cons_of_mem _ hx))
    · rename_i hf
      unfold insert_or_ignore
      split
      · exact ih hrows (fun x hx => hfail x (List.mem_cons_of_mem _ hx))
      · refine ih (fun r hr => ?_) (fun x hx => hfail x (List.mem_cons_of_mem _ hx))
        rcases List.mem_append.1 hr with hr | hr
        · exact hrows r hr
        · have he : r = row_of now l := by simpa using hr
          subst he
          intro hin
          exact hf (hfail l (by simp) (by simpa [row_of] using hin))

/-- A lead whose id is already present is skipped entirely. -/
theorem save_go_skip_known {f : Lead → Bool} {now : String} :
    ∀ {leads : List Lead} {rows : List Row} {acc : List Lead},
    (∀ l ∈ leads, ∃ r ∈ rows, r.id = l.id) →
    save_leads_go f now rows acc leads = (rows, acc) := by
  intro leads
  induction leads with
  | nil => intro rows acc _; rfl
  | cons l rest ih =>
    intro rows acc h
    simp only [save_leads_go]
    split
    · exact ih (fun x hx => h x (List.mem_cons_of_mem _ hx))
    · unfold insert_or_ignore
      rcases h l (by simp) with ⟨r, hr, hid⟩
      rw [if_pos (List.any_eq_true.2 ⟨r, hr, by simp [row_of, hid]⟩)]
      simp only [if_neg (by decide : ¬ (0 = 1))]
      exact ih (fun x hx => h x (List.mem_cons_of_mem _ hx))

/-- Where the returned new leads come from: either carried in, or a
processed lead that did not fail and whose id was absent when reached
(hence absent from the initial table). -/
theorem save_go_new_mem {f : Lead → Bool} {now : String} {x : Lead} :
    ∀ {leads : List Lead} {rows : List Row} {acc : List Lead},
    x ∈ (save_leads_go f now rows acc leads).2 →
    x ∈ acc ∨ (x ∈ leads ∧ f x = false ∧ ∀ r ∈ rows, r.id ≠ x.id) := by
  intro leads
  induction leads with
  | nil => intro rows acc h; exact Or.inl h
  | cons l rest ih =>
    intro rows acc h
    simp only [save_leads_go] at h
    split at h
    · rcases ih h with h' | h'
      · exact Or.inl h'
      · exact Or.inr ⟨List.mem_cons_of_mem _ h'.1, h'.2⟩
    · rename_i hf
      revert h
      unfold insert_or_ignore
      split
      · rename_i hany
        simp only [if_neg (by decide : ¬ (0 = 1))]
        intro h
        rcases ih h with h' | h'
        · exact Or.inl h'
        · exact Or.inr ⟨List.mem_cons_of_mem _ h'.1, h'.2⟩
      · rename_i hany
        simp only [if_pos rfl]
        intro h
        rcases ih h with h' | h'
        · rcases List.mem_append.1 h' with h'' | h''
          · exact Or.inl h''
          · have hx : x = l := by simpa using h''
            subst hx
            refine Or.inr ⟨by simp, by simpa using hf, fun r hr => ?_⟩
            intro he
            exact hany (List.any_eq_true.2 ⟨r, hr, by simp [row_of, he]⟩)
        · rcases h' with ⟨h1, h2, h3⟩
          exact Or.inr ⟨List.mem_cons_of_mem _ h1, h2,
            fun r hr => h3 r (List.mem_append.2 (Or.inl hr))⟩

/-- If no processed lead carries id `i`, the rows with id `i` are exactly
the initial ones. -/
theorem save_go_filter_congr {f : Lead → Bool} {now : String} {i : String} :
    ∀ {leads : List Lead} {rows : List Row} {acc : List Lead},
    (∀ l ∈ leads, l.id ≠ i) →
    (save_leads_go f now rows acc leads).1.filter (fun r => r.id = i) =
      rows.filter (fun r => r.id = i) := by
  intro leads
  induction leads with
  | nil => intro rows acc _; rfl
  | cons l rest ih =>
    intro rows acc h
    simp only [save_leads_go]
    split
    · exact ih (fun x hx => h x (List.mem_cons_of_mem _ hx))
    · unfold insert_or_ignore
      split
      · simp only [if_neg (by decide : ¬ (0 = 1))]
        exact ih (fun x hx => h x (List.mem_cons_of_mem _ hx))
      · simp only [if_pos rfl]
        rw [ih (fun x hx => h x (List.mem_cons_of_mem _ hx))]
        rw [List.filter_append]
        have : (List.filter (fun r => decide (r.id = i)) [row_of now l]) = [] := by
          simp [row_of, h l (by simp)]
        rw [this, List.append_nil]

/-- One element of the batch carries id `i`, the table does not, and the
batch has distinct ids: afterwards the table holds exactly one row with
id `i`. -/
theorem save_go_count_one {now : String} {i : String} :
    ∀ {leads : List Lead} {rows : List Row},
    (leadIds leads).Nodup → (∀ r ∈ rows, r.id ≠ i) → (∃ l ∈ leads, l.id = i) →
    ∀ {acc : List Lead},
    ((save_leads_go (fun _ => false) now rows acc leads).1.filter
      (fun r => r.id = i)).length = 1 := by
  intro leads
  induction leads with
  | nil => intro rows _ _ h; simp at h
  | cons l rest ih =>
    intro rows hnd hrows hex acc
    simp only [leadIds, List.map_cons, List.nodup_cons] at hnd
    by_cases hli : l.id = i
    · simp only [save_leads_go, if_neg (by simp : ¬ (false = true))]
      unfold insert_or_ignore
      rw [if_neg (by
        intro hany
        rcases List.any_eq_true.1 hany with ⟨r, hr, he⟩
        exact hrows r hr (by simp [row_of] at he; rw [he, hli]))]
      simp only [if_pos rfl]
      rw [save_go_filter_congr (fun x hx hxi => hnd.1
        (List.mem_map.2 ⟨x, hx, by rw [hxi, hli]⟩))]
      rw [List.filter_append]
      have h1 : rows.filter (fun r => decide (r.id = i)) = [] :=
        List.filter_eq_nil_iff.2 (fun r hr => by simpa using hrows r hr)
      have h2 : List.filter (fun r => decide (r.id = i)) [row_of now l] = [row_of now l] := by
        simp [row_of, hli]
      rw [h1, h2]
      rfl
    · rcases hex with ⟨w, hw, hwi⟩
      have hwrest : w ∈ rest := by
        rcases List.mem_cons.1 hw with rfl | h'
        · exact absurd hwi hli
        · exact h'
      simp only [save_leads_go, if_neg (by simp : ¬ (false = true))]
      unfold insert_or_ignore
      split
      · exact ih hnd.2 hrows ⟨w, hwrest, hwi⟩
      · refine ih hnd.2 (fun r hr => ?_) ⟨w, hwrest, hwi⟩
        rcases List.mem_append.1 hr with hr | hr
        · exact hrows r hr
        · have : r = row_of now l := by simpa using hr
          rw [this]
          simpa [row_of] using hli

/-! ## Helper lemmas: search and scan -/

/-- Every lead a parse produces carries that call's keyword tag. -/
theorem parse_keyword {soup : Node} {kw : String} {l : Lead}
    (h : l ∈ parse_olx_list soup kw) : l.keyword = kw := by
  unfold parse_olx_list at h
  rcases List.mem_filterMap.1 (mem_dedupKeepFirst h) with ⟨pr, _, hpr⟩
  exact (process_anchor_spec hpr).1

/-- Every lead a search returns came out of a parse of one of the two
fetched pages (with the same keyword). -/
theorem mem_search {fetch : String → Option Node} {kw : String} {x : Lead}
    (h : x ∈ search_olx_by_keyword fetch kw) :
    ∃ soup : Node, x ∈ parse_olx_list soup kw := by
  unfold search_olx_by_keyword at h
  have h' := mem_dedupKeepLast h
  simp only [List.foldl_cons, List.foldl_nil] at h'
  rcases hf1 : fetch (OLX_SEARCH_URL (py_quote kw)) with _ | s1 <;> rw [hf1] at h' <;>
    rcases hf2 : fetch (OLX_SEARCH_URL_RU (py_quote kw)) with _ | s2 <;> rw [hf2] at h' <;>
    dsimp only at h'
  · simp at h'
  · exact ⟨s2, by simpa using h'⟩
  · exact ⟨s1, by simpa using h'⟩
  · rcases List.mem_append.1 h' with h'' | h''
    · exact ⟨s1, by simpa using h''⟩
    · exact ⟨s2, h''⟩

/-- Every lead a search returns carries that search's keyword tag. -/
theorem search_keyword {fetch : String → Option Node} {kw : String} {x : Lead}
    (h : x ∈ search_olx_by_keyword fetch kw) : x.keyword = kw := by
  rcases mem_search h with ⟨soup, hs⟩
  exact parse_keyword hs

/-- A search result never repeats an id. -/
theorem search_nodup (fetch : String → Option Node) (kw : String) :
    (leadIds (search_olx_by_keyword fetch kw)).Nodup := by
  unfold search_olx_by_keyword
  exact nodup_dedupKeepLast _

/-- A scan over two keywords merges the two searches with
dict-comprehension dedup. -/
theorem scan_two (fetch : String → Option Node) (k1 k2 : String) :
    scan_all_keywords fetch [k1, k2] =
      dedupKeepLast (search_olx_by_keyword fetch k1 ++ search_olx_by_keyword fetch k2) := by
  unfold scan_all_keywords
  simp

/-- If both of a keyword's URLs fail to fetch, its search is empty. -/
theorem search_empty_of_fetch_none {fetch : String → Option Node} {kw : String}
    (h1 : fetch (OLX_SEARCH_URL (py_quote kw)) = none)
    (h2 : fetch (OLX_SEARCH_URL_RU (py_quote kw)) = none) :
    search_olx_by_keyword fetch kw = [] := by
  unfold search_olx_by_keyword
  simp only [List.foldl_cons, List.foldl_nil, h1, h2]
  rfl

/-! ## Concrete instances used by witnesses and counterexamples -/

/-- A concrete lead for store-level witnesses. -/
def leadW : Lead :=
  ⟨"fp-1", "https://www.olx.ua/d/obyavlenie/x", "чай", "100 грн", "Київ", "", "olx", "чай"⟩

/-! ## Claims -/

/-- C1: inserting a listing `L` into the dedup store twice (via
`save_leads`, whose `INSERT OR IGNORE` is keyed by the fingerprint id)
reports it as new on the first call (`new_items = [L]`) and not on the
second (`new_items = []`, table unchanged), and afterwards the store
contains exactly one row for `L`'s fingerprint. -/
theorem claim_C1_insert_if_absent (rows : List Row) (L : Lead) (now1 now2 : String)
    (h : ∀ r ∈ rows, r.id ≠ L.id) :
    (save_leads rows [L] (fun _ => false) now1).2 = [L] ∧
    (save_leads (save_leads rows [L] (fun _ => false) now1).1 [L]
      (fun _ => false) now2).2 = [] ∧
    (save_leads (save_leads rows [L] (fun _ => false) now1).1 [L]
      (fun _ => false) now2).1 = (save_leads rows [L] (fun _ => false) now1).1 ∧
    ((save_leads (save_leads rows [L] (fun _ => false) now1).1 [L]
      (fun _ => false) now2).1.filter (fun r => r.id = L.id)).length = 1 := by
  have hany : rows.any (fun x => x.id = (row_of now1 L).id) = false := by
    rw [List.any_eq_false]
    intro r hr
    simpa [row_of] using h r hr
  have e1 : save_leads rows [L] (fun _ => false) now1 = (rows ++ [row_of now1 L], [L]) := by
    simp only [save_leads, save_leads_go, insert_or_ignore, hany]
    simp
  have hknown : ∀ l ∈ [L], ∃ r ∈ rows ++ [row_of now1 L], r.id = l.id := by
    intro l hl
    have hle : l = L := by simpa using hl
    subst hle
    exact ⟨row_of now1 l, by simp, rfl⟩
  have e2 : save_leads (rows ++ [row_of now1 L]) [L] (fun _ => false) now2 =
      (rows ++ [row_of now1 L], []) := save_go_skip_known hknown
  rw [e1]
  dsimp only
  rw [e2]
  dsimp only
  refine ⟨rfl, rfl, rfl, ?_⟩
  rw [List.filter_append]
  have h1 : rows.filter (fun r => decide (r.id = L.id)) = [] :=
    List.filter_eq_nil_iff.2 (fun r hr => by simpa using h r hr)
  have h2 : List.filter (fun r => decide (r.id = L.id)) [row_of now1 L] = [row_of now1 L] := by
    simp [row_of]
  rw [h1, h2]
  rfl

/-- Witness for C1 at a concrete lead and an empty store. -/
theorem claim_C1_witness :
    (save_leads [] [leadW] (fun _ => false) "t1").2 = [leadW] ∧
    (save_leads (save_leads [] [leadW] (fun _ => false) "t1").1 [leadW]
      (fun _ => false) "t2").2 = [] ∧
    (save_leads (save_leads [] [leadW] (fun _ => false) "t1").1 [leadW]
      (fun _ => false) "t2").1 = (save_leads [] [leadW] (fun _ => false) "t1").1 ∧
    ((save_leads (save_leads [] [leadW] (fun _ => false) "t1").1 [leadW]
      (fun _ => false) "t2").1.filter (fun r => r.id = leadW.id)).length = 1 :=
  claim_C1_insert_if_absent [] leadW "t1" "t2" (by simp)

/-- C6: a listing whose store insert fails with an I/O error is not
returned as new (never surfaced to the Notifier), the failure does not
abort the loop over the remaining listings (the failing listing is simply
skipped, and any non-failing listing still gets its row), and no row for
the failed listing is committed, so it is still not-yet-seen for the next
cycle. -/
theorem claim_C6_store_write_failure (rows : List Row) (leads : List Lead)
    (fail : Lead → Bool) (now : String) :
    (∀ (l : Lead) (rest : List Lead), fail l = true →
      save_leads rows (l :: rest) fail now = save_leads rows rest fail now) ∧
    (∀ x ∈ (save_leads rows leads fail now).2, fail x = false) ∧
    (∀ x ∈ leads, fail x = false →
      ∃ r ∈ (save_leads rows leads fail now).1, r.id = x.id) ∧
    (∀ i : String, (∀ r ∈ rows, r.id ≠ i) →
      (∀ x ∈ leads, x.id = i → fail x = true) →
      ∀ r ∈ (save_leads rows leads fail now).1, r.id ≠ i) := by
  refine ⟨?_, ?_, ?_, ?_⟩
  · intro l rest hl
    simp only [save_leads, save_leads_go, if_pos hl]
  · intro x hx
    rcases save_go_new_mem hx with h | h
    · simp at h
    · exact h.2.1
  · intro x hx hf
    exact save_go_id_present hx hf
  · intro i hrows hfail
    exact save_go_no_id hrows hfail

/-- Witness for C6: a two-lead batch where the first insert fails; the
second is still saved, the failed one is not returned and leaves no row. -/
theorem claim_C6_witness :
    (∀ x ∈ (save_leads [] [leadW, ⟨"fp-2", "u2", "t2", "p2", "Київ", "", "olx", "чай"⟩]
        (fun l => l.id = "fp-1") "t").2, (fun l : Lead => (l.id = "fp-1" : Bool)) x = false) ∧
    (∃ r ∈ (save_leads [] [leadW, ⟨"fp-2", "u2", "t2", "p2", "Київ", "", "olx", "чай"⟩]
        (fun l => l.id = "fp-1") "t").1, r.id = "fp-2") ∧
    (∀ r ∈ (save_leads [] [leadW, ⟨"fp-2", "u2", "t2", "p2", "Київ", "", "olx", "чай"⟩]
        (fun l => l.id = "fp-1") "t").1, r.id ≠ "fp-1") := by
  have h := claim_C6_store_write_failure []
    [leadW, ⟨"fp-2", "u2", "t2", "p2", "Київ", "", "olx", "чай"⟩]
    (fun l => l.id = "fp-1") "t"
  refine ⟨h.2.1, ?_, ?_⟩
  · exact h.2.2.1 ⟨"fp-2", "u2", "t2", "p2", "Київ", "", "olx", "чай"⟩ (by simp) (by decide)
  · exact h.2.2.2 "fp-1" (by simp) (by decide)

/-- C2: running scan-and-save twice against identical fetcher output
yields no new listings the second time; with a fresh store and a non-empty
candidate set the first run's new set is non-empty; and a listing already
in the store from a prior cycle is never returned as new. -/
theorem claim_C2_repeat_scan (db : List Row) (fetch : String → Option Node)
    (keywords : List String) (now1 now2 : String) :
    (save_leads (save_leads db (scan_all_keywords fetch keywords)
        (fun _ => false) now1).1
      (scan_all_keywords fetch keywords) (fun _ => false) now2).2 = [] ∧
    (db = [] → scan_all_keywords fetch keywords ≠ [] →
      (save_leads db (scan_all_keywords fetch keywords) (fun _ => false) now1).2 ≠ []) ∧
    (∀ l ∈ (save_leads db (scan_all_keywords fetch keywords) (fun _ => false) now1).2,
      ∀ r ∈ db, r.id ≠ l.id) := by
  refine ⟨?_, ?_, ?_⟩
  · have hknown : ∀ l ∈ scan_all_keywords fetch keywords,
        ∃ r ∈ (save_leads db (scan_all_keywords fetch keywords)
          (fun _ => false) now1).1, r.id = l.id :=
      fun l hl => save_go_id_present hl rfl
    have h2 := @save_go_skip_known (fun _ => false) now2 (scan_all_keywords fetch keywords)
      (save_leads db (scan_all_keywords fetch keywords) (fun _ => false) now1).1 [] hknown
    show (save_leads_go (fun _ => false) now2
      (save_leads db (scan_all_keywords fetch keywords) (fun _ => false) now1).1 []
      (scan_all_keywords fetch keywords)).2 = []
    rw [h2]
  · intro hdb hne
    subst hdb
    rcases hscan : scan_all_keywords fetch keywords with _ | ⟨l, rest⟩
    · exact absurd hscan hne
    · have h1 : save_leads [] (l :: rest) (fun _ => false) now1 =
          save_leads_go (fun _ => false) now1 [row_of now1 l] [l] rest := by
        simp [save_leads, save_leads_go, insert_or_ignore]
      intro hempty
      have hmem : l ∈ (save_leads [] (l :: rest) (fun _ => false) now1).2 := by
        rw [h1]
        exact save_go_acc_mono (by simp)
      rw [hempty] at hmem
      simp at hmem
  · intro l hl r hr
    rcases save_go_new_mem hl with h | h
    · simp at h
    · exact h.2.2 r hr

/-- Witness for C2: concrete page, one keyword, fresh store. -/
theorem claim_C2_witness :
    (save_leads (save_leads [] (scan_all_keywords (fun _ => some soupA) ["чай"])
        (fun _ => false) "t1").1
      (scan_all_keywords (fun _ => some soupA) ["чай"]) (fun _ => false) "t2").2 = [] ∧
    (save_leads [] (scan_all_keywords (fun _ => some soupA) ["чай"])
      (fun _ => false) "t1").2 ≠ [] := by
  have h := claim_C2_repeat_scan [] (fun _ => some soupA) ["чай"] "t1" "t2"
  exact ⟨h.1, h.2.1 rfl (by decide)⟩

/-- C4: when the fetch step fails for keyword `k1` (no response for either
of its URLs) but succeeds for `k2`, the scan over both keywords returns
exactly the listings discoverable from `k2`, without raising (the embedded
scan is total) and without aborting the remaining keyword. -/
theorem claim_C4_fetch_failure_tolerance (fetch : String → Option Node) (k1 k2 : String)
    (h1 : fetch (OLX_SEARCH_URL (py_quote k1)) = none)
    (h2 : fetch (OLX_SEARCH_URL_RU (py_quote k1)) = none) :
    scan_all_keywords fetch [k1, k2] = search_olx_by_keyword fetch k2 := by
  rw [scan_two, search_empty_of_fetch_none h1 h2]
  simp only [List.nil_append]
  exact dedupKeepLast_eq_self (search_nodup fetch k2)

/-- Witness for C4 with an everywhere-failing fetcher. -/
theorem claim_C4_witness :
    scan_all_keywords (fun _ => none) ["чай оптом", "чай"] =
      search_olx_by_keyword (fun _ => none) "чай" :=
  claim_C4_fetch_failure_tolerance (fun _ => none) "чай оптом" "чай" rfl rfl

/-- C3 counterexample: both keywords "a" and "b" surface the same URL
(the fetcher returns the same page for every query).  The first keyword's
search produces a candidate with the same fingerprint, the merged cycle
list keeps that fingerprint once — but the survivor carries the keyword
tag "b" of the LAST keyword, not the first one, because
`{x["id"]: x for x in all_leads}` overwrites the stored value. -/
theorem claim_C3_counterexample :
    (search_olx_by_keyword (fun _ => some soupA) "a").map (fun l => l.keyword) = ["a"] ∧
    leadIds (search_olx_by_keyword (fun _ => some soupA) "a") =
      leadIds (search_olx_by_keyword (fun _ => some soupA) "b") ∧
    (scan_all_keywords (fun _ => some soupA) ["a", "b"]).map (fun l => l.keyword) = ["b"] :=
  ⟨by decide, by decide, by decide⟩

/-- C3 (amended): when two keywords of one cycle surface candidates with
the same fingerprint, the merged candidate list contains that fingerprint
exactly once, exactly one store insert results — and the surviving
candidate carries the keyword tag of the LAST keyword that produced it
(dict-comprehension merge), not the first. -/
theorem claim_C3_amended (fetch : String → Option Node) (k1 k2 : String) (i : String)
    (h1 : ∃ a ∈ search_olx_by_keyword fetch k1, a.id = i)
    (h2 : ∃ b ∈ search_olx_by_keyword fetch k2, b.id = i) :
    ((scan_all_keywords fetch [k1, k2]).filter (fun l => l.id = i)).length = 1 ∧
    (∀ l ∈ scan_all_keywords fetch [k1, k2], l.id = i → l.keyword = k2) ∧
    (∀ (rows : List Row) (now : String), (∀ r ∈ rows, r.id ≠ i) →
      ((save_leads rows (scan_all_keywords fetch [k1, k2])
        (fun _ => false) now).1.filter (fun r => r.id = i)).length = 1) := by
  rcases h2 with ⟨b, hb, hbi⟩
  rcases List.append_of_mem hb with ⟨u, v, huv⟩
  have hnd2 := search_nodup fetch k2
  rw [huv, leadIds_append] at hnd2
  have hbv : b.id ∉ leadIds v := by
    have := (List.Nodup.of_append_right hnd2 :
      (leadIds (b :: v)).Nodup)
    rw [show leadIds (b :: v) = b.id :: leadIds v from rfl, List.nodup_cons] at this
    exact this.1
  have hv : ∀ y ∈ v, y.id ≠ b.id := by
    intro y hy he
    exact hbv (mem_leadIds.2 ⟨y, hy, he⟩)
  have hmem : b ∈ scan_all_keywords fetch [k1, k2] := by
    rw [scan_two, huv, show search_olx_by_keyword fetch k1 ++ (u ++ b :: v) =
      (search_olx_by_keyword fetch k1 ++ u) ++ b :: v from by simp]
    exact dedupKeepLast_mem_last hv
  have hnd : (leadIds (scan_all_keywords fetch [k1, k2])).Nodup := by
    rw [scan_two]
    exact nodup_dedupKeepLast _
  refine ⟨?_, ?_, ?_⟩
  · rw [← hbi]
    exact count_of_nodup hnd hmem
  · intro l hl hli
    have : l = b := eq_of_nodup_ids hnd hl hmem (by rw [hli, hbi])
    rw [this]
    exact search_keyword hb
  · intro rows now hrows
    exact save_go_count_one hnd hrows ⟨b, hmem, hbi⟩

/-- Witness for the amended C3: the concrete two-keyword cycle above. -/
theorem claim_C3_witness :
    ((scan_all_keywords (fun _ => some soupA) ["a", "b"]).filter
      (fun l => l.id = hsh "https://www.olx.ua/d/obyavlenie/prodam-chai-kyiv")).length = 1 ∧
    (∀ l ∈ scan_all_keywords (fun _ => some soupA) ["a", "b"],
      l.id = hsh "https://www.olx.ua/d/obyavlenie/prodam-chai-kyiv" → l.keyword = "b") := by
  have h := claim_C3_amended (fun _ => some soupA) "a" "b"
    (hsh "https://www.olx.ua/d/obyavlenie/prodam-chai-kyiv") (by decide) (by decide)
  exact ⟨h.1, h.2.1⟩

/-- C5: during fan-out a delivery failure to one subscriber is caught
inside `send_to_telegram` (never raised) and does not prevent the attempts
to the other subscribers or to subsequent listings: with three subscribers
where the second's transport always fails, every listing is still
attempted to all three, succeeding for the first and third. -/
theorem claim_C5_notification_independence (send : String → String → Except String Unit)
    (a b c : String)
    (ha : ∀ t, send a t = Except.ok ())
    (hb : ∀ t, ∃ e, send b t = Except.error e)
    (hc : ∀ t, send c t = Except.ok ())
    (new_leads : List Lead) :
    notify_new_leads send [a, b, c] new_leads =
      (new_leads.map (fun L =>
        [(a, format_lead L, true), (b, format_lead L, false),
         (c, format_lead L, true)])).flatten := by
  unfold notify_new_leads
  refine congrArg List.flatten (List.map_congr_left ?_)
  intro L _
  rcases hb (format_lead L) with ⟨e, he⟩
  simp [send_to_telegram, ha (format_lead L), he, hc (format_lead L)]

/-- Witness for C5: subscriber "2" is blocked; listings still reach "1"
and "3". -/
theorem claim_C5_witness :
    notify_new_leads
      (fun ch _ => if ch = "2" then Except.error "blocked" else Except.ok ())
      ["1", "2", "3"] [leadW] =
      [("1", format_lead leadW, true), ("2", format_lead leadW, false),
       ("3", format_lead leadW, true)] := by
  have h := claim_C5_notification_independence
    (fun ch _ => if ch = "2" then Except.error "blocked" else Except.ok ())
    "1" "2" "3" (fun t => by simp) (fun t => ⟨"blocked", by simp⟩) (fun t => by simp)
    [leadW]
  simpa using h

/-- C7: the stats report's daily delta marker is a function of
(today − yesterday): the zero marker on equality, the green marker with
the (signed) magnitude when positive, the red marker with the signed value
when negative; and the month marker follows the same rule on
(this month − previous month). -/
theorem claim_C7_stats_delta (rows : List Row) (d1 d2 m1 m2 : String) :
    (((count_day rows d1 : Int) - count_day rows d2 = 0) →
      (handle_stats rows d1 d2 m1 m2).d_mark = "⚪︎ 0") ∧
    (∀ d : Int, 0 < d → (count_day rows d1 : Int) - count_day rows d2 = d →
      (handle_stats rows d1 d2 m1 m2).d_mark = "🟢 +" ++ toString d) ∧
    (∀ d : Int, d < 0 → (count_day rows d1 : Int) - count_day rows d2 = d →
      (handle_stats rows d1 d2 m1 m2).d_mark = "🔴 " ++ toString d) ∧
    (((count_month rows m1 : Int) - count_month rows m2 = 0) →
      (handle_stats rows d1 d2 m1 m2).m_mark = "⚪︎ 0") ∧
    (∀ d : Int, 0 < d → (count_month rows m1 : Int) - count_month rows m2 = d →
      (handle_stats rows d1 d2 m1 m2).m_mark = "🟢 +" ++ toString d) ∧
    (∀ d : Int, d < 0 → (count_month rows m1 : Int) - count_month rows m2 = d →
      (handle_stats rows d1 d2 m1 m2).m_mark = "🔴 " ++ toString d) := by
  refine ⟨?_, ?_, ?_, ?_, ?_, ?_⟩
  · intro h
    unfold handle_stats
    dsimp only
    rw [h, if_neg (by omega), if_neg (by omega)]
  · intro d hd he
    unfold handle_stats
    dsimp only
    rw [he, if_pos hd]
  · intro d hd he
    unfold handle_stats
    dsimp only
    rw [he, if_neg (by omega), if_pos hd]
  · intro h
    unfold handle_stats
    dsimp only
    rw [h, if_neg (by omega), if_neg (by omega)]
  · intro d hd he
    unfold handle_stats
    dsimp only
    rw [he, if_pos hd]
  · intro d hd he
    unfold handle_stats
    dsimp only
    rw [he, if_neg (by omega), if_pos hd]

/-- A store with 7 leads saved on 2026-01-02 and 5 on 2026-01-01. -/
def rowsW : List Row :=
  List.replicate 7 ⟨"a", "u", "t", "p", "l", "", "olx", "k", "2026-01-02T10:00:00+00:00"⟩ ++
  List.replicate 5 ⟨"b", "u", "t", "p", "l", "", "olx", "k", "2026-01-01T10:00:00+00:00"⟩

/-- Witness for C7: today=7 vs yesterday=5 gives the positive marker with
magnitude 2. -/
theorem claim_C7_witness :
    (handle_stats rowsW "2026-01-02" "2026-01-01" "2026-01" "2025-12").d_mark =
      "🟢 +" ++ toString (2 : Int) :=
  (claim_C7_stats_delta rowsW "2026-01-02" "2026-01-01" "2026-01" "2025-12").2.1 2
    (by decide) (by decide)

/-- C8 counterexample: a database with subscriber "999", a fetcher that
yields one fresh listing, and an on-demand scan requested from chat "1".
The scan does find and format a new listing (two messages go out: the
acknowledgement and one formatted lead), the subscriber list is ["999"] —
yet no message at all is addressed to "999": the `/scan` handler performs
no notification fan-out to the subscribers. -/
theorem claim_C8_counterexample :
    ((handle_scan ⟨[], ["999"]⟩ (fun _ => some soupA) ["чай"] "1" "t").2.filter
      (fun m => m.1 = "999")) = [] ∧
    (handle_scan ⟨[], ["999"]⟩ (fun _ => some soupA) ["чай"] "1" "t").2.length = 2 ∧
    get_subscribers ⟨[], ["999"]⟩ = ["999"] :=
  ⟨by decide, by decide, rfl⟩

/-- C8 (amended): the on-demand scan runs the scan synchronously,
persists its results, and replies to the requester with at most a bounded
number (20) of formatted new listings; every message it sends is addressed
to the requester only — it performs no fan-out to the subscribers (the
fan-out happens only in the periodic scanner). -/
theorem claim_C8_amended (db : DB) (fetch : String → Option Node)
    (keywords : List String) (chat_id now : String) :
    (handle_scan db fetch keywords chat_id now).1.leads =
      (save_leads db.leads (scan_all_keywords fetch keywords) (fun _ => false) now).1 ∧
    (∀ m ∈ (handle_scan db fetch keywords chat_id now).2, m.1 = chat_id) ∧
    (handle_scan db fetch keywords chat_id now).2.length ≤ 1 + 20 := by
  refine ⟨rfl, ?_, ?_⟩
  · intro m hm
    unfold handle_scan at hm
    dsimp only at hm
    split at hm
    · rcases List.mem_append.1 hm with h | h
      · rw [show m = (chat_id, "Сканую OLX, зачекай 10–60 сек…") from by simpa using h]
      · rw [show m = (chat_id, "Нових оголошень не знайдено. Спробую пізніше.") from by
          simpa using h]
    · rcases List.mem_append.1 hm with h | h
      · rw [show m = (chat_id, "Сканую OLX, зачекай 10–60 сек…") from by simpa using h]
      · rcases List.mem_map.1 h with ⟨l, _, he⟩
        rw [← he]
  · unfold handle_scan
    dsimp only
    split
    · simp
    · rw [List.length_append, List.length_map, List.length_take]
      simp only [List.length_cons, List.length_nil]
      omega

/-- Witness for the amended C8 at the counterexample's concrete input. -/
theorem claim_C8_witness :
    (∀ m ∈ (handle_scan ⟨[], ["999"]⟩ (fun _ => some soupA) ["чай"] "1" "t").2,
      m.1 = "1") ∧
    (handle_scan ⟨[], ["999"]⟩ (fun _ => some soupA) ["чай"] "1" "t").2.length ≤ 1 + 20 :=
  ⟨(claim_C8_amended ⟨[], ["999"]⟩ (fun _ => some soupA) ["чай"] "1" "t").2.1,
   (claim_C8_amended ⟨[], ["999"]⟩ (fun _ => some soupA) ["чай"] "1" "t").2.2⟩

/-- C9: every listing the OLX list parser produces has a non-empty url
beginning with "http" (relative hrefs having been absolutised with the
`https://www.olx.ua` host), and its id is the SHA-256 hex digest of that
url. -/
theorem claim_C9_url_fingerprint (soup : Node) (kw : String) (l : Lead)
    (h : l ∈ parse_olx_list soup kw) :
    l.url ≠ "" ∧ py_startswith l.url "http" = true ∧ l.id = hsh l.url := by
  rcases List.mem_filterMap.1 (mem_dedupKeepFirst h) with ⟨pr, _, hpr⟩
  have hs := process_anchor_spec hpr
  refine ⟨?_, hs.2.2.1, hs.2.1⟩
  intro he
  have hstart := hs.2.2.1
  rw [he] at hstart
  exact absurd hstart (by decide)

/-- Witness for C9 at the concrete page. -/
theorem claim_C9_witness :
    ((parse_olx_list soupA "чай").headD default).url ≠ "" ∧
    py_startswith ((parse_olx_list soupA "чай").headD default).url "http" = true ∧
    ((parse_olx_list soupA "чай").headD default).id =
      hsh ((parse_olx_list soupA "чай").headD default).url :=
  claim_C9_url_fingerprint soupA "чай" _ (by decide)

/-- A concrete anchor element for a Lviv listing. -/
def anchorB : Node :=
  Node.elem "a" [("href", "/d/obyavlenie/lviv-tea")] (nodes [])

/-- The card element around `anchorB`, carrying a non-Kyiv location. -/
def cardB : Node :=
  Node.elem "div" [] (nodes
    [anchorB, Node.elem "p" [] (nodes [Node.text "Львів, Галицький район"])])

/-- A concrete page whose only ad candidate is located in Lviv. -/
def soupB : Node := Node.elem "html" [] (nodes [cardB])

/-- C10: the parser silently drops every candidate whose extracted
location text is non-empty and lacks a Kyiv city name (checked
case-insensitively on the lowered text), keeps a candidate with no
extracted location and gives it the placeholder "Київ", and consequently
every listing it emits — all that ever reaches the store or the
subscribers — has a Kyiv location. -/
theorem claim_C10_kyiv_filter (soup : Node) (kw : String) :
    (∀ l ∈ parse_olx_list soup kw, is_kyiv l.location = true) ∧
    (∀ pr : List Node × Node, (extract_fields pr.1).location ≠ "" →
      is_kyiv (extract_fields pr.1).location = false → process_anchor kw pr = none) ∧
    (∀ (pr : List Node × Node) (l : Lead), process_anchor kw pr = some l →
      (extract_fields pr.1).location = "" → l.location = "Київ") ∧
    (∀ (anc : List Node) (t : String) (attrs : List (String × String)) (cs : NodeForest)
      (href : String), attrs.lookup "href" = some href → href ≠ "" →
      (strHas href "/d/" ∧ (strHas href "/obyavlenie/" ∨ strHas href "/ogoloshennya/")) →
      (extract_fields anc).location = "" →
      ∃ l : Lead, process_anchor kw (anc, Node.elem t attrs cs) = some l ∧
        l.location = "Київ") := by
  refine ⟨?_, ?_, ?_, ?_⟩
  · intro l hl
    rcases List.mem_filterMap.1 (mem_dedupKeepFirst hl) with ⟨pr, _, hpr⟩
    exact (process_anchor_spec hpr).2.2.2.1
  · intro pr hne hk
    unfold process_anchor
    rcases pr with ⟨anc, a⟩
    cases a with
    | text s => rfl
    | elem t attrs cs =>
      dsimp only at hne hk ⊢
      rcases hl : attrs.lookup "href" with _ | href
      · rfl
      · dsimp only
        by_cases h0 : href = ""
        · rw [if_pos h0]
        · rw [if_neg h0]
          by_cases h1 : strHas href "/d/" ∧ (strHas href "/obyavlenie/" ∨ strHas href "/ogoloshennya/")
          · rw [if_pos h1, if_pos ⟨hne, by simp [hk]⟩]
          · rw [if_neg h1]
  · intro pr l hl hloc
    exact (process_anchor_spec hl).2.2.2.2 hloc
  · intro anc t attrs cs href hhref h0 h1 hloc
    unfold process_anchor
    dsimp only
    rw [hhref]
    dsimp only
    rw [if_neg h0, if_pos h1, if_neg (by simp [hloc])]
    exact ⟨_, rfl, by dsimp only; rw [if_pos hloc]⟩

/-- Witness for C10: the Kyiv lead of `soupA` passes, the Lviv candidate
of `soupB` is dropped, and an anchor with no extractable location gets the
placeholder. -/
theorem claim_C10_witness :
    is_kyiv ((parse_olx_list soupA "чай").headD default).location = true ∧
    process_anchor "чай" ([cardB, soupB], anchorB) = none ∧
    (∃ l : Lead, process_anchor "чай" ([], Node.elem "a"
        [("href", "/d/obyavlenie/bare")] (nodes [])) = some l ∧
      l.location = "Київ") :=
  ⟨(claim_C10_kyiv_filter soupA "чай").1 _ (by decide),
   (claim_C10_kyiv_filter soupB "чай").2.1 ([cardB, soupB], anchorB) (by decide) (by decide),
   (claim_C10_kyiv_filter soupB "чай").2.2.2 [] "a" [("href", "/d/obyavlenie/bare")]
     (nodes []) "/d/obyavlenie/bare" (by decide) (by decide) (by decide) (by decide)⟩
